import Mathlib

/-!
Shallow embedding of `src/rate_limiter.cpp` (namespace `rate_limiter`).

The file models the two worker loops of the packet-egress pacer:

* `main_loop` (best-effort Drain Loop, lines 15-26): dequeue a batch, then
  retry `rte_eth_tx_burst` on the unsent suffix until the whole batch is
  accepted.
* `main_loop_cbr` (Paced Loop, lines 28-49): compute `id_cycles` once, then
  per iteration dequeue, read the cycle counter, apply the 10 ms idle-drift
  reset, and release the batch one packet at a time, each release gated by a
  spin-wait on `next_send`.

Machine integers are `Nat` with explicit `% 2^64` where uint64 overflow can
occur; the `double` arithmetic of line 30 is embedded as exact rational
arithmetic.  The external collaborators (ring, NIC, TSC) are oracles: each
loop consumes a list of oracle answers (dequeue return codes, cycle-counter
readings, accepted counts), and the loop body is a function of those answers,
producing a transcript of the transmit calls it makes.  A `none` outcome
means the answers ran out while the source loop would still be running (the
real loops are infinite); a `some` outcome records a completed inner loop.
-/

namespace rate_limiter

/-- The uint64 modulus `2 ^ 64 = 18446744073709551616`. -/
def U64 : ℕ := 18446744073709551616

theorem U64_eq : U64 = 2 ^ 64 := by norm_num [U64]

/-- uint64 subtraction `a - b` for `a b < U64`, i.e. `(a - b) mod 2^64`
with wraparound, as in the C expression `cur - next_send` of line 37. -/
def wsub (a b : ℕ) : ℕ := (a + U64 - b) % U64

/-- `constexpr int batch_size = 64;` (line 12). -/
def batch_size : ℕ := 64

/-- Line 30: `id_cycles = (uint64_t) (target / (1000000000.0 / ((double) tsc_hz)))`,
with the two `double` divisions embedded as exact rational divisions and the
cast to `uint64_t` as `Nat.floor` (truncation).  Note division by zero is 0 in
`ℚ`, matching the C result 0 for the cast of `target / inf` when `tsc_hz = 0`. -/
def id_cycles (target tsc_hz : ℕ) : ℕ :=
  Nat.floor ((target : ℚ) / (1000000000 / (tsc_hz : ℚ)))

/-- The formula the spec states for the rate computation:
`counter_frequency_hz / target_pps`, truncated to an integer.  This is the
spec's words, kept separate so it can be compared with `id_cycles`, the
definition read off the source. -/
def id_cycles_spec (target tsc_hz : ℕ) : ℕ := tsc_hz / target

/-- One call to `rte_eth_tx_burst` made by an inner transmit loop:
`offset` is the value of `sent` at the call (the array offset `bufs + sent`),
`len` the packet count offered, `accepted` the count the NIC returned. -/
structure TxCall where
  offset : ℕ
  len : ℕ
  accepted : ℕ
deriving DecidableEq, Repr

/-- Inner retry loop of `main_loop` (lines 20-23):
`while (sent < batch_size) sent += rte_eth_tx_burst(device, queue, bufs + sent, batch_size - sent);`
`n` is `batch_size`, `sent` the accumulator, and the list holds the successive
return values of `rte_eth_tx_burst`.  Returns the transcript of calls and
`some finalSent` if the loop exited, `none` if the oracle answers ran out
while the loop was still running. -/
def drainInner (n : ℕ) (sent : ℕ) : List ℕ → List TxCall × Option ℕ
  | [] => ([], if sent < n then none else some sent)
  | a :: rest =>
    if sent < n then
      let r := drainInner n (sent + a) rest
      ({ offset := sent, len := n - sent, accepted := a } :: r.1, r.2)
    else ([], some sent)

/-- Oracle answers for one iteration of `main_loop` (lines 17-25):
`rcOk` is `ring_dequeue(...) == 0`, `accepts` the `rte_eth_tx_burst` returns
available to the inner retry loop of that iteration. -/
structure DrainIterIn where
  rcOk : Bool
  accepts : List ℕ
deriving DecidableEq, Repr

/-- The outer `while (1)` of `main_loop`, run over a finite prefix of dequeue
iterations.  Second component is `false` if the run got stuck inside an inner
retry loop (oracle exhausted there), `true` otherwise. -/
def drainLoop (n : ℕ) : List DrainIterIn → List TxCall × Bool
  | [] => ([], true)
  | i :: rest =>
    if i.rcOk then
      match drainInner n 0 i.accepts with
      | (calls, none) => (calls, false)
      | (calls, some _) =>
        let r := drainLoop n rest
        (calls ++ r.1, r.2)
    else drainLoop n rest

/-- The spin-wait of line 43: `while ((cur = rte_get_tsc_cycles()) < next_send);`.
The list holds successive `rte_get_tsc_cycles()` readings; the spin exits with
the first reading that is not below `next_send` (uint64 compare), `none` if
the readings ran out first. -/
def spinWait (next_send : ℕ) : List ℕ → Option ℕ
  | [] => none
  | t :: rest => if t < next_send then spinWait next_send rest else some t

/-- Oracle answers for one pass of the per-packet loop of `main_loop_cbr`
(lines 42-46): the cycle-counter readings fed to the spin-wait, and the
return value of the single-packet `rte_eth_tx_burst`. -/
structure CbrAttemptIn where
  readings : List ℕ
  accepted : ℕ
deriving DecidableEq, Repr

/-- One recorded pass of the per-packet loop of `main_loop_cbr`:
`offset` is `sent` at the call (packet `bufs + sent` is offered), `len` the
offered count (the literal `1` of line 45), `sched` the value of `next_send`
when the spin-wait began, `txCycle` the reading `cur` that ended the
spin-wait (the counter value immediately before the transmit call),
`accepted` the `rte_eth_tx_burst` return, and `nextSendAfter` the value of
`next_send` after line 44 ran for this pass. -/
structure CbrAttempt where
  offset : ℕ
  len : ℕ
  sched : ℕ
  txCycle : ℕ
  accepted : ℕ
  nextSendAfter : ℕ
deriving DecidableEq, Repr

/-- Inner per-packet loop of `main_loop_cbr` (lines 41-46):
`while (sent < batch_size) { while ((cur = tsc()) < next_send); next_send += id_cycles; sent += tx_burst(..., bufs + sent, 1); }`
with `next_send += id_cycles` in uint64 arithmetic (`% U64`).  Returns the
transcript of attempts and `some (finalSent, finalNextSend)` if the loop
exited, `none` if the oracle ran out (or a spin-wait never ended). -/
def cbrInner (n id_c : ℕ) (sent next_send : ℕ) :
    List CbrAttemptIn → List CbrAttempt × Option (ℕ × ℕ)
  | [] => ([], if sent < n then none else some (sent, next_send))
  | i :: rest =>
    if sent < n then
      match spinWait next_send i.readings with
      | none => ([], none)
      | some t =>
        let ns := (next_send + id_c) % U64
        let r := cbrInner n id_c (sent + i.accepted) ns rest
        ({ offset := sent, len := 1, sched := next_send, txCycle := t,
           accepted := i.accepted, nextSendAfter := ns } :: r.1, r.2)
    else ([], some (sent, next_send))

/-- Lines 37-39: `if (cur - next_send > tsc_hz / 100) next_send = cur;`
using uint64 wraparound subtraction. -/
def driftReset (tsc_hz next_send cur : ℕ) : ℕ :=
  if tsc_hz / 100 < wsub cur next_send then cur else next_send

/-- Oracle answers for one iteration of the outer `while (1)` of
`main_loop_cbr` (lines 33-48): `rcOk` is `ring_dequeue(...) == 0`, `cur` the
line-35 `rte_get_tsc_cycles()` reading, `attempts` the per-packet oracle for
the inner loop of that iteration. -/
structure CbrIterIn where
  rcOk : Bool
  cur : ℕ
  attempts : List CbrAttemptIn
deriving DecidableEq, Repr

/-- One iteration of the outer loop of `main_loop_cbr`: the drift reset runs
every iteration (lines 35-39); the inner per-packet loop runs only when the
dequeue succeeded (line 40).  Returns the attempts made and `some` the value
of `next_send` at the end of the iteration, `none` if stuck inside. -/
def cbrIter (tsc_hz id_c next_send : ℕ) (inp : CbrIterIn) :
    List CbrAttempt × Option ℕ :=
  let ns1 := driftReset tsc_hz next_send inp.cur
  if inp.rcOk then
    let r := cbrInner batch_size id_c 0 ns1 inp.attempts
    (r.1, r.2.map Prod.snd)
  else ([], some ns1)

/-- The outer `while (1)` of `main_loop_cbr`, run over a finite prefix of
iterations, threading `next_send` (initialized to 0 at line 31 by callers). -/
def cbrLoop (tsc_hz id_c next_send : ℕ) : List CbrIterIn → List CbrAttempt × Option ℕ
  | [] => ([], some next_send)
  | inp :: rest =>
    let r := cbrIter tsc_hz id_c next_send inp
    match r.2 with
    | none => (r.1, none)
    | some ns1 =>
      let r2 := cbrLoop tsc_hz id_c ns1 rest
      (r.1 ++ r2.1, r2.2)

/-! ### Helper lemmas about the spin-wait -/

theorem spinWait_ge (ns : ℕ) : ∀ (ts : List ℕ) (t : ℕ), spinWait ns ts = some t → ns ≤ t
  | [], t, h => by simp [spinWait] at h
  | a :: rest, t, h => by
    by_cases ha : a < ns
    · exact spinWait_ge ns rest t (by simpa [spinWait, ha] using h)
    · have : a = t := by simpa [spinWait, ha] using h
      omega

/-! ### Helper lemmas about the Drain Loop's inner retry loop -/

theorem drainInner_cons (n sent a : ℕ) (rest : List ℕ) (h : sent < n) :
    drainInner n sent (a :: rest)
      = ({ offset := sent, len := n - sent, accepted := a } ::
          (drainInner n (sent + a) rest).1, (drainInner n (sent + a) rest).2) := by
  simp [drainInner, h]

theorem drainInner_shape (n : ℕ) : ∀ (as : List ℕ) (sent : ℕ),
    ∀ c ∈ (drainInner n sent as).1, c.offset < n ∧ c.len = n - c.offset
  | [], sent => by simp [drainInner]
  | a :: rest, sent => by
    intro c hc
    by_cases h : sent < n
    · rw [drainInner_cons n sent a rest h] at hc
      rcases List.mem_cons.mp hc with rfl | hc
      · exact ⟨h, rfl⟩
      · exact drainInner_shape n rest (sent + a) c hc
    · simp [drainInner, h] at hc

theorem drainInner_final (n : ℕ) : ∀ (as : List ℕ) (sent : ℕ), sent ≤ n →
    (∀ c ∈ (drainInner n sent as).1, c.accepted ≤ c.len) →
    ∀ f, (drainInner n sent as).2 = some f → f = n
  | [], sent => by
    intro hsn _ f hf
    simp only [drainInner] at hf
    split at hf
    · simp at hf
    · simp only [Option.some.injEq] at hf
      omega
  | a :: rest, sent => by
    intro hsn hacc f hf
    by_cases h : sent < n
    · rw [drainInner_cons n sent a rest h] at hacc hf
      have hhead : a ≤ n - sent := by
        simpa using hacc _ (List.mem_cons_self _ _)
      refine drainInner_final n rest (sent + a) (by omega) ?_ f hf
      intro c hc
      exact hacc c (List.mem_cons_of_mem _ hc)
    · have : some sent = some f := by simpa [drainInner, h] using hf
      simp only [Option.some.injEq] at this
      omega

theorem drainInner_sum (n : ℕ) : ∀ (as : List ℕ) (sent f : ℕ),
    (drainInner n sent as).2 = some f →
    f = sent + ((drainInner n sent as).1.map TxCall.accepted).sum
  | [], sent, f => by
    intro hf
    simp only [drainInner] at hf ⊢
    split at hf
    · simp at hf
    · simp only [Option.some.injEq] at hf
      simp [hf]
  | a :: rest, sent, f => by
    intro hf
    by_cases h : sent < n
    · rw [drainInner_cons n sent a rest h] at hf ⊢
      have := drainInner_sum n rest (sent + a) f hf
      simp only [List.map_cons, List.sum_cons]
      omega
    · have : some sent = some f := by simpa [drainInner, h] using hf
      simp only [Option.some.injEq] at this
      simp [drainInner, h, ← this]

theorem drainInner_flatten {α : Type} (B : List α) (n : ℕ) :
    ∀ (as : List ℕ) (sent : ℕ),
    ((drainInner n sent as).1.map
        (fun c => (B.drop c.offset).take c.accepted)).flatten
      = (B.drop sent).take (((drainInner n sent as).1.map TxCall.accepted).sum)
  | [], sent => by simp [drainInner]
  | a :: rest, sent => by
    by_cases h : sent < n
    · rw [drainInner_cons n sent a rest h]
      simp only [List.map_cons, List.flatten_cons, List.sum_cons]
      rw [drainInner_flatten B n rest (sent + a), List.take_add,
        List.drop_drop]
    · simp [drainInner, h]

/-! ### Helper lemmas about the Paced Loop's inner per-packet loop -/

theorem cbrInner_cons (n id_c sent ns : ℕ) (i : CbrAttemptIn) (rest : List CbrAttemptIn)
    (h : sent < n) (t : ℕ) (hspin : spinWait ns i.readings = some t) :
    cbrInner n id_c sent ns (i :: rest)
      = ({ offset := sent, len := 1, sched := ns, txCycle := t,
           accepted := i.accepted, nextSendAfter := (ns + id_c) % U64 } ::
          (cbrInner n id_c (sent + i.accepted) ((ns + id_c) % U64) rest).1,
         (cbrInner n id_c (sent + i.accepted) ((ns + id_c) % U64) rest).2) := by
  simp [cbrInner, h, hspin]

theorem cbrInner_cons_stuck (n id_c sent ns : ℕ) (i : CbrAttemptIn)
    (rest : List CbrAttemptIn) (h : sent < n) (hspin : spinWait ns i.readings = none) :
    cbrInner n id_c sent ns (i :: rest) = ([], none) := by
  simp [cbrInner, h, hspin]

theorem cbrInner_shape (n id_c : ℕ) : ∀ (inps : List CbrAttemptIn) (sent ns : ℕ),
    ∀ c ∈ (cbrInner n id_c sent ns inps).1,
      c.offset < n ∧ c.len = 1 ∧ c.sched ≤ c.txCycle ∧
        c.nextSendAfter = (c.sched + id_c) % U64
  | [], sent, ns => by simp [cbrInner]
  | i :: rest, sent, ns => by
    intro c hc
    by_cases h : sent < n
    · cases hspin : spinWait ns i.readings with
      | none => rw [cbrInner_cons_stuck n id_c sent ns i rest h hspin] at hc; simp at hc
      | some t =>
        rw [cbrInner_cons n id_c sent ns i rest h t hspin] at hc
        rcases List.mem_cons.mp hc with rfl | hc
        · exact ⟨h, rfl, spinWait_ge ns i.readings t hspin, rfl⟩
        · exact cbrInner_shape n id_c rest (sent + i.accepted) ((ns + id_c) % U64) c hc
    · simp [cbrInner, h] at hc

theorem cbrInner_final (n id_c : ℕ) : ∀ (inps : List CbrAttemptIn) (sent ns : ℕ),
    sent ≤ n →
    (∀ c ∈ (cbrInner n id_c sent ns inps).1, c.accepted ≤ c.len) →
    ∀ s ns2, (cbrInner n id_c sent ns inps).2 = some (s, ns2) → s = n
  | [], sent, ns => by
    intro hsn _ s ns2 hf
    simp only [cbrInner] at hf
    split at hf
    · simp at hf
    · simp only [Option.some.injEq, Prod.mk.injEq] at hf
      omega
  | i :: rest, sent, ns => by
    intro hsn hacc s ns2 hf
    by_cases h : sent < n
    · cases hspin : spinWait ns i.readings with
      | none =>
        rw [cbrInner_cons_stuck n id_c sent ns i rest h hspin] at hf
        simp at hf
      | some t =>
        rw [cbrInner_cons n id_c sent ns i rest h t hspin] at hacc hf
        have hhead : i.accepted ≤ 1 := by
          simpa using hacc _ (List.mem_cons_self _ _)
        refine cbrInner_final n id_c rest (sent + i.accepted) ((ns + id_c) % U64)
          (by omega) ?_ s ns2 hf
        intro c hc
        exact hacc c (List.mem_cons_of_mem _ hc)
    · have : some (sent, ns) = some (s, ns2) := by simpa [cbrInner, h] using hf
      simp only [Option.some.injEq, Prod.mk.injEq] at this
      omega

theorem cbrInner_head (n id_c : ℕ) (inps : List CbrAttemptIn) (sent ns : ℕ)
    (c : CbrAttempt) (hc : (cbrInner n id_c sent ns inps).1.head? = some c) :
    c.offset = sent ∧ c.sched = ns := by
  cases inps with
  | nil => simp [cbrInner] at hc
  | cons i rest =>
    by_cases h : sent < n
    · cases hspin : spinWait ns i.readings with
      | none => rw [cbrInner_cons_stuck n id_c sent ns i rest h hspin] at hc; simp at hc
      | some t =>
        rw [cbrInner_cons n id_c sent ns i rest h t hspin] at hc
        simp only [List.head?_cons, Option.some.injEq] at hc
        subst hc
        exact ⟨rfl, rfl⟩
    · simp [cbrInner, h] at hc

theorem cbrInner_chain (n id_c : ℕ) : ∀ (inps : List CbrAttemptIn) (sent ns : ℕ),
    List.Chain' (fun a b => b.sched = a.nextSendAfter ∧ b.offset = a.offset + a.accepted)
      (cbrInner n id_c sent ns inps).1
  | [], sent, ns => by simp [cbrInner]
  | i :: rest, sent, ns => by
    by_cases h : sent < n
    · cases hspin : spinWait ns i.readings with
      | none => rw [cbrInner_cons_stuck n id_c sent ns i rest h hspin]; simp
      | some t =>
        rw [cbrInner_cons n id_c sent ns i rest h t hspin]
        rw [List.chain'_cons']
        refine ⟨?_, cbrInner_chain n id_c rest (sent + i.accepted) ((ns + id_c) % U64)⟩
        intro y hy
        have := cbrInner_head n id_c rest (sent + i.accepted) ((ns + id_c) % U64) y
          (Option.mem_def.mp hy)
        exact ⟨this.2, this.1⟩
    · simp [cbrInner, h]

/-! ### Helper lemmas about the outer loops -/

theorem cbrIter_calls (tsc id_c ns : ℕ) (inp : CbrIterIn) :
    (cbrIter tsc id_c ns inp).1
      = if inp.rcOk then
          (cbrInner batch_size id_c 0 (driftReset tsc ns inp.cur) inp.attempts).1
        else [] := by
  simp only [cbrIter]
  split <;> rfl

theorem cbrLoop_calls (tsc id_c : ℕ) (inp : CbrIterIn) (rest : List CbrIterIn) (ns : ℕ) :
    (cbrLoop tsc id_c ns (inp :: rest)).1
      = (cbrIter tsc id_c ns inp).1 ++
        (match (cbrIter tsc id_c ns inp).2 with
         | none => []
         | some ns1 => (cbrLoop tsc id_c ns1 rest).1) := by
  simp only [cbrLoop]
  cases (cbrIter tsc id_c ns inp).2 <;> simp

theorem cbrLoop_mem (tsc id_c : ℕ) : ∀ (inps : List CbrIterIn) (ns : ℕ) (c : CbrAttempt),
    c ∈ (cbrLoop tsc id_c ns inps).1 →
    ∃ ns1 atts, c ∈ (cbrInner batch_size id_c 0 ns1 atts).1
  | [], ns, c => by simp [cbrLoop]
  | inp :: rest, ns, c => by
    intro hc
    rw [cbrLoop_calls] at hc
    rcases List.mem_append.mp hc with hc | hc
    · rw [cbrIter_calls] at hc
      by_cases hrc : inp.rcOk
      · rw [if_pos hrc] at hc
        exact ⟨_, _, hc⟩
      · rw [if_neg hrc] at hc
        simp at hc
    · cases ho : (cbrIter tsc id_c ns inp).2 with
      | none => rw [ho] at hc; simp at hc
      | some ns1 =>
        rw [ho] at hc
        exact cbrLoop_mem tsc id_c rest ns1 c hc

theorem cbrIter_no_rc (tsc id_c ns : ℕ) (inp : CbrIterIn) (hrc : inp.rcOk = false) :
    cbrIter tsc id_c ns inp = ([], some (driftReset tsc ns inp.cur)) := by
  simp [cbrIter, hrc]

theorem cbrLoop_no_rc (tsc id_c : ℕ) : ∀ (inps : List CbrIterIn) (ns : ℕ),
    (∀ i ∈ inps, i.rcOk = false) →
    (cbrLoop tsc id_c ns inps).1 = [] ∧ ((cbrLoop tsc id_c ns inps).2).isSome = true
  | [], ns, _ => by simp [cbrLoop]
  | inp :: rest, ns, h => by
    have hrc : inp.rcOk = false := h inp (List.mem_cons_self _ _)
    have hrest := cbrLoop_no_rc tsc id_c rest (driftReset tsc ns inp.cur)
      (fun i hi => h i (List.mem_cons_of_mem _ hi))
    simp only [cbrLoop, cbrIter_no_rc tsc id_c ns inp hrc]
    exact ⟨hrest.1, hrest.2⟩

theorem drainLoop_no_rc (n : ℕ) : ∀ (inps : List DrainIterIn),
    (∀ i ∈ inps, i.rcOk = false) → drainLoop n inps = ([], true)
  | [], _ => by simp [drainLoop]
  | i :: rest, h => by
    have hrc : i.rcOk = false := h i (List.mem_cons_self _ _)
    simp only [drainLoop, hrc]
    exact drainLoop_no_rc n rest (fun j hj => h j (List.mem_cons_of_mem _ hj))

/-! ### Helper lemmas about the drift reset and the rate computation -/

theorem wsub_of_le (a b : ℕ) (hba : b ≤ a) (ha : a < U64) : wsub a b = a - b := by
  simp only [wsub, U64] at *
  omega

theorem wsub_of_gt (a b : ℕ) (hab : a < b) (hb : b < U64) : wsub a b = U64 - (b - a) := by
  simp only [wsub, U64] at *
  omega

theorem driftReset_idle (tsc ns cur : ℕ) (h1 : ns ≤ cur) (h2 : cur < U64)
    (h3 : tsc / 100 < cur - ns) : driftReset tsc ns cur = cur := by
  unfold driftReset
  rw [wsub_of_le cur ns h1 h2, if_pos h3]

theorem driftReset_ahead (tsc ns cur : ℕ) (h1 : cur < ns) (h2 : ns < U64)
    (h3 : ns - cur < U64 - tsc / 100) : driftReset tsc ns cur = cur := by
  unfold driftReset
  rw [wsub_of_gt cur ns h1 h2,
    if_pos (by simp only [U64] at *; omega)]

theorem id_cycles_eq_div (target tsc_hz : ℕ) :
    id_cycles target tsc_hz = target * tsc_hz / 1000000000 := by
  rcases Nat.eq_zero_or_pos tsc_hz with h | h
  · subst h
    simp [id_cycles]
  · have hz : ((tsc_hz : ℚ)) ≠ 0 := Nat.cast_ne_zero.mpr h.ne'
    have key : (target : ℚ) / (1000000000 / (tsc_hz : ℚ))
        = ((target * tsc_hz : ℕ) : ℚ) / ((1000000000 : ℕ) : ℚ) := by
      push_cast
      field_simp
    rw [id_cycles, key, Nat.floor_div_nat, Nat.floor_natCast]

/-! ### The claims -/

/-- Claim C1, amended.  The claim states `id_cycles = trunc(tsc_hz / target)`
(target a rate in packets per second); the code of line 30 instead divides
`target` by the nanoseconds-per-cycle value `1e9 / tsc_hz`, i.e. it treats
`target` as a nanosecond per-packet interval: `id_cycles` is the truncation
of `target * tsc_hz / 10^9`, not of `tsc_hz / target`. -/
theorem claim1_interval_formula (target tsc_hz : ℕ) :
    id_cycles target tsc_hz = target * tsc_hz / 1000000000 :=
  id_cycles_eq_div target tsc_hz

/-- Counterexample to claim C1 as stated: at `target = 1000` and
`tsc_hz = 2·10^9` the code computes 2000 cycles, while the spec's formula
`tsc_hz / target` gives 2000000 cycles. -/
theorem claim1_counterexample :
    id_cycles 1000 2000000000 = 2000 ∧
    id_cycles_spec 1000 2000000000 = 2000000 ∧
    id_cycles 1000 2000000000 ≠ id_cycles_spec 1000 2000000000 := by
  have h := id_cycles_eq_div 1000 2000000000
  rw [h]
  exact ⟨by decide, by decide, by decide⟩

/-- Claim C2: for a batch `B` obtained by one successful dequeue, under the
sink contract (each accepted count at most the count offered), every transmit
call of the Drain Loop's inner retry loop offers exactly the unsent suffix of
`B` (`offset + len = |B|`), the loop exits only with `sent = |B|`, and the
accepted handles, concatenated in call order, are exactly `B`: every handle
transmitted exactly once, in the batch's original relative order. -/
theorem claim2_drain_batch_exact_once {α : Type} (B : List α) (as : List ℕ) (f : ℕ)
    (hacc : ∀ c ∈ (drainInner B.length 0 as).1, c.accepted ≤ c.len)
    (hf : (drainInner B.length 0 as).2 = some f) :
    (∀ c ∈ (drainInner B.length 0 as).1, c.offset + c.len = B.length) ∧
    f = B.length ∧
    ((drainInner B.length 0 as).1.map
        (fun c => (B.drop c.offset).take c.accepted)).flatten = B := by
  have hfin := drainInner_final B.length as 0 (Nat.zero_le _) hacc f hf
  refine ⟨?_, hfin, ?_⟩
  · intro c hc
    have := drainInner_shape B.length as 0 c hc
    omega
  · have hsum := drainInner_sum B.length as 0 f hf
    rw [drainInner_flatten B B.length as 0, List.drop_zero]
    have hS : ((drainInner B.length 0 as).1.map TxCall.accepted).sum = B.length := by
      omega
    rw [hS, List.take_length]

/-- Witness for C2: batch `[10, 20, 30]`, sink accepts `1`, then `0`, then `2`. -/
theorem claim2_witness :
    (∀ c ∈ (drainInner (List.length [10, 20, 30]) 0 [1, 0, 2]).1,
        c.accepted ≤ c.len) ∧
    ((∀ c ∈ (drainInner (List.length [10, 20, 30]) 0 [1, 0, 2]).1,
        c.offset + c.len = List.length [10, 20, 30]) ∧
      3 = List.length [10, 20, 30] ∧
      ((drainInner (List.length [10, 20, 30]) 0 [1, 0, 2]).1.map
          (fun c => (List.drop c.offset [10, 20, 30]).take c.accepted)).flatten
        = [10, 20, 30]) :=
  ⟨by decide, claim2_drain_batch_exact_once [10, 20, 30] [1, 0, 2] 3 (by decide) (by decide)⟩

/-- Claim C3, amended.  Every non-reset update of `next_send` is the line-44
uint64 addition `next_send := (next_send + id_cycles) mod 2^64`; it is
non-decreasing whenever `next_send + id_cycles < 2^64`.  (Without that bound
the claim as stated fails: the uint64 addition wraps and decreases
`next_send`, see the counterexample.) -/
theorem claim3_monotone_no_overflow (tsc id_c ns : ℕ) (inps : List CbrIterIn)
    (c : CbrAttempt) (hc : c ∈ (cbrLoop tsc id_c ns inps).1)
    (hov : c.sched + id_c < U64) : c.sched ≤ c.nextSendAfter := by
  obtain ⟨ns1, atts, hc'⟩ := cbrLoop_mem tsc id_c inps ns c hc
  have hs := cbrInner_shape batch_size id_c atts 0 ns1 c hc'
  rw [hs.2.2.2, Nat.mod_eq_of_lt hov]
  omega

/-- Counterexample to claim C3 as stated: with `next_send = 2^64 - 1` and
`id_cycles = 1`, an iteration in which the reset does not fire still
decreases `next_send` (to 0) at the non-reset line-44 step, because the
uint64 addition wraps. -/
theorem claim3_counterexample :
    ¬ ∀ c ∈ (cbrLoop 100 1 (U64 - 1) [⟨true, U64 - 1, [⟨[U64 - 1], 1⟩]⟩]).1,
        c.sched ≤ c.nextSendAfter := by decide

/-- Witness for C3 (amended): a run with no overflow, `id_cycles = 2`. -/
theorem claim3_witness :
    (⟨0, 1, 0, 3, 1, 2⟩ : CbrAttempt) ∈ (cbrLoop 100 2 0 [⟨true, 0, [⟨[3], 1⟩]⟩]).1 ∧
    (⟨0, 1, 0, 3, 1, 2⟩ : CbrAttempt).sched + 2 < U64 ∧
    (⟨0, 1, 0, 3, 1, 2⟩ : CbrAttempt).sched ≤ (⟨0, 1, 0, 3, 1, 2⟩ : CbrAttempt).nextSendAfter :=
  ⟨by decide, by decide,
   claim3_monotone_no_overflow 100 2 0 [⟨true, 0, [⟨[3], 1⟩]⟩] _ (by decide) (by decide)⟩

/-- Claim C4, amended.  A rejected single-packet transmit does consume a
schedule slot (`next_send` advances by `id_cycles`, in uint64 arithmetic,
once per attempt), but the rejected handle is NOT lost: since line 45 adds
the accepted count to `sent`, the next attempt offers `bufs + sent` again,
i.e. consecutive attempts satisfy `next.offset = prev.offset + prev.accepted`,
so after `accepted = 0` the same handle is resubmitted. -/
theorem claim4_rejected_is_retried (n id_c sent ns : ℕ) (inps : List CbrAttemptIn) :
    List.Chain' (fun a b => b.sched = a.nextSendAfter ∧ b.offset = a.offset + a.accepted)
      (cbrInner n id_c sent ns inps).1 ∧
    ∀ c ∈ (cbrInner n id_c sent ns inps).1,
      c.nextSendAfter = (c.sched + id_c) % U64 :=
  ⟨cbrInner_chain n id_c inps sent ns,
   fun c hc => (cbrInner_shape n id_c inps sent ns c hc).2.2.2⟩

/-- Counterexample to claim C4 as stated: in a run where the first
single-packet transmit is rejected (`accepted = 0`), a later attempt offers
the same packet index again — the rejected handle IS resubmitted, so the
"never resubmitted / silently lost" part of the claim is false on the code. -/
theorem claim4_counterexample :
    ¬ List.Pairwise (fun a b => a.accepted = 0 → b.offset ≠ a.offset)
        (cbrInner batch_size 2 0 0 [⟨[5], 0⟩, ⟨[6], 1⟩]).1 := by decide

/-- Witness-style instantiation for C4 (amended) at a concrete run with a
rejected first attempt. -/
theorem claim4_witness :
    List.Chain' (fun a b => b.sched = a.nextSendAfter ∧ b.offset = a.offset + a.accepted)
      (cbrInner batch_size 2 0 0 [⟨[5], 0⟩, ⟨[6], 1⟩]).1 ∧
    ∀ c ∈ (cbrInner batch_size 2 0 0 [⟨[5], 0⟩, ⟨[6], 1⟩]).1,
      c.nextSendAfter = (c.sched + 2) % U64 :=
  claim4_rejected_is_retried batch_size 2 0 0 [⟨[5], 0⟩, ⟨[6], 1⟩]

/-- Claim C5: the Paced Loop never transmits early.  For every transmit
attempt recorded anywhere in a run of the loop, the cycle-counter reading
that ended the spin-wait (read immediately before the transmit call) is at
least the value `next_send` held when that packet's wait began. -/
theorem claim5_no_early_transmit (tsc id_c ns : ℕ) (inps : List CbrIterIn)
    (c : CbrAttempt) (hc : c ∈ (cbrLoop tsc id_c ns inps).1) :
    c.sched ≤ c.txCycle := by
  obtain ⟨ns1, atts, hc'⟩ := cbrLoop_mem tsc id_c inps ns c hc
  exact (cbrInner_shape batch_size id_c atts 0 ns1 c hc').2.2.1

/-- Witness for C5. -/
theorem claim5_witness :
    (⟨0, 1, 0, 3, 1, 2⟩ : CbrAttempt) ∈ (cbrLoop 100 2 0 [⟨true, 0, [⟨[3], 1⟩]⟩]).1 ∧
    (⟨0, 1, 0, 3, 1, 2⟩ : CbrAttempt).sched ≤ (⟨0, 1, 0, 3, 1, 2⟩ : CbrAttempt).txCycle :=
  ⟨by decide, claim5_no_early_transmit 100 2 0 [⟨true, 0, [⟨[3], 1⟩]⟩] _ (by decide)⟩

/-- Claim C6: when at the top of an iteration the counter value `now = cur`
satisfies `now - next_send > tsc_hz / 100` (here in the plain sense:
`next_send ≤ now` and the difference exceeds the threshold), the reset sets
`next_send` to exactly `now`, and the first packet of that iteration (head of
the iteration's transcript, if any) is scheduled at `now`, not at the stale
pre-gap value. -/
theorem claim6_idle_reset_to_now (tsc id_c ns : ℕ) (inp : CbrIterIn)
    (h1 : ns ≤ inp.cur) (h2 : inp.cur < U64) (h3 : tsc / 100 < inp.cur - ns) :
    driftReset tsc ns inp.cur = inp.cur ∧
    ∀ c, (cbrIter tsc id_c ns inp).1.head? = some c → c.sched = inp.cur := by
  have hreset := driftReset_idle tsc ns inp.cur h1 h2 h3
  refine ⟨hreset, ?_⟩
  intro c hcc
  rw [cbrIter_calls] at hcc
  by_cases hrc : inp.rcOk
  · rw [if_pos hrc] at hcc
    have := cbrInner_head batch_size id_c inp.attempts 0 (driftReset tsc ns inp.cur) c hcc
    rw [this.2, hreset]
  · rw [if_neg hrc] at hcc
    simp at hcc

/-- Witness for C6: threshold `100 / 100 = 1` cycle, idle gap of 10 cycles. -/
theorem claim6_witness :
    (0 : ℕ) ≤ 10 ∧ (10 : ℕ) < U64 ∧ (100 : ℕ) / 100 < 10 - 0 ∧
    driftReset 100 0 10 = 10 ∧
    ((cbrIter 100 5 0 ⟨true, 10, [⟨[10], 1⟩]⟩).1.head?
        = some (⟨0, 1, 10, 10, 1, 15⟩ : CbrAttempt) →
      (⟨0, 1, 10, 10, 1, 15⟩ : CbrAttempt).sched = 10) :=
  ⟨by decide, by decide, by decide,
   (claim6_idle_reset_to_now 100 5 0 ⟨true, 10, [⟨[10], 1⟩]⟩
      (by decide) (by decide) (by decide)).1,
   (claim6_idle_reset_to_now 100 5 0 ⟨true, 10, [⟨[10], 1⟩]⟩
      (by decide) (by decide) (by decide)).2 _⟩

/-- Claim C7: in the Paced Loop's inner per-packet loop, every transmit
attempt offers exactly one packet (the literal `1` of line 45), and
`next_send` is advanced by exactly `id_cycles` (in uint64 arithmetic) once
per attempt, whatever the attempt's accepted count was. -/
theorem claim7_one_packet_per_attempt (n id_c sent ns : ℕ) (inps : List CbrAttemptIn)
    (c : CbrAttempt) (hc : c ∈ (cbrInner n id_c sent ns inps).1) :
    c.len = 1 ∧ c.nextSendAfter = (c.sched + id_c) % U64 := by
  have := cbrInner_shape n id_c inps sent ns c hc
  exact ⟨this.2.1, this.2.2.2⟩

/-- Witness for C7, at an attempt whose accepted count is 0. -/
theorem claim7_witness :
    (⟨0, 1, 0, 5, 0, 2⟩ : CbrAttempt) ∈ (cbrInner batch_size 2 0 0 [⟨[5], 0⟩]).1 ∧
    (⟨0, 1, 0, 5, 0, 2⟩ : CbrAttempt).len = 1 ∧
    (⟨0, 1, 0, 5, 0, 2⟩ : CbrAttempt).nextSendAfter
      = ((⟨0, 1, 0, 5, 0, 2⟩ : CbrAttempt).sched + 2) % U64 :=
  ⟨by decide, claim7_one_packet_per_attempt batch_size 2 0 0 [⟨[5], 0⟩] _ (by decide)⟩

/-- Claim C8: the idle-gap test is uint64 wraparound arithmetic, so when the
schedule is in the future (`cur < next_send`) by any amount below
`2^64 - tsc_hz / 100`, the wrapped difference `cur - next_send` exceeds the
threshold and the reset fires, setting `next_send = cur` — the reset is not
restricted to genuine idle gaps. -/
theorem claim8_reset_fires_when_ahead (tsc ns cur : ℕ)
    (h1 : cur < ns) (h2 : ns < U64) (h3 : ns - cur < U64 - tsc / 100) :
    tsc / 100 < wsub cur ns ∧ driftReset tsc ns cur = cur := by
  have hw := wsub_of_gt cur ns h1 h2
  constructor
  · rw [hw]
    simp only [U64] at *
    omega
  · exact driftReset_ahead tsc ns cur h1 h2 h3

/-- Witness for C8: schedule 5 cycles in the future, threshold 1 cycle. -/
theorem claim8_witness :
    (5 : ℕ) < 10 ∧ (10 : ℕ) < U64 ∧ (10 : ℕ) - 5 < U64 - 100 / 100 ∧
    (100 : ℕ) / 100 < wsub 5 10 ∧ driftReset 100 10 5 = 5 :=
  ⟨by decide, by decide, by decide,
   (claim8_reset_fires_when_ahead 100 10 5 (by decide) (by decide) (by decide)).1,
   (claim8_reset_fires_when_ahead 100 10 5 (by decide) (by decide) (by decide)).2⟩

/-- Claim C9: if every dequeue of a run returns "none ready" (nonzero code),
then neither loop ever makes a transmit call: the Drain Loop's transcript is
empty (and it never got stuck), and the Paced Loop's transcript is empty
(and each iteration completed, still polling). -/
theorem claim9_no_dequeue_no_transmit (n tsc id_c ns : ℕ)
    (dIn : List DrainIterIn) (cIn : List CbrIterIn)
    (hd : ∀ i ∈ dIn, i.rcOk = false) (hc : ∀ i ∈ cIn, i.rcOk = false) :
    drainLoop n dIn = ([], true) ∧
    (cbrLoop tsc id_c ns cIn).1 = [] ∧ ((cbrLoop tsc id_c ns cIn).2).isSome = true :=
  ⟨drainLoop_no_rc n dIn hd, (cbrLoop_no_rc tsc id_c cIn ns hc).1,
   (cbrLoop_no_rc tsc id_c cIn ns hc).2⟩

/-- Witness for C9. -/
theorem claim9_witness :
    (∀ i ∈ [(⟨false, [3]⟩ : DrainIterIn)], i.rcOk = false) ∧
    (∀ i ∈ [(⟨false, 7, []⟩ : CbrIterIn)], i.rcOk = false) ∧
    (drainLoop batch_size [⟨false, [3]⟩] = ([], true) ∧
      (cbrLoop 100 2 0 [⟨false, 7, []⟩]).1 = [] ∧
      ((cbrLoop 100 2 0 [⟨false, 7, []⟩]).2).isSome = true) :=
  ⟨by decide, by decide,
   claim9_no_dequeue_no_transmit batch_size 100 2 0 [⟨false, [3]⟩] [⟨false, 7, []⟩]
     (by decide) (by decide)⟩

/-- Claim C10: under the sink contract (accepted count at most the count
offered), in both inner transmit loops started at `sent = 0` the accumulator
never exceeds the batch size: every Drain Loop call covers exactly the
window `[offset, n)` with `offset < n`, every Paced Loop call offers one
packet at `offset < n`, and either inner loop exits exactly when
`sent = n`. -/
theorem claim10_inner_loops_safe (n id_c ns : ℕ) (as : List ℕ) (inps : List CbrAttemptIn)
    (hA : ∀ c ∈ (drainInner n 0 as).1, c.accepted ≤ c.len)
    (hB : ∀ c ∈ (cbrInner n id_c 0 ns inps).1, c.accepted ≤ c.len) :
    (∀ c ∈ (drainInner n 0 as).1, c.offset + c.len = n) ∧
    (∀ f, (drainInner n 0 as).2 = some f → f = n) ∧
    (∀ c ∈ (cbrInner n id_c 0 ns inps).1, c.offset + c.len ≤ n) ∧
    (∀ s ns2, (cbrInner n id_c 0 ns inps).2 = some (s, ns2) → s = n) := by
  refine ⟨?_, drainInner_final n as 0 (Nat.zero_le _) hA, ?_,
    cbrInner_final n id_c inps 0 ns (Nat.zero_le _) hB⟩
  · intro c hc
    have := drainInner_shape n as 0 c hc
    omega
  · intro c hc
    obtain ⟨h1, h2, -, -⟩ := cbrInner_shape n id_c inps 0 ns c hc
    omega

/-- Witness for C10 at `n = batch_size = 64`: the Drain Loop accepts all 64
in one call; the Paced Loop accepts 1 packet in each of 64 attempts. -/
theorem claim10_witness :
    (∀ c ∈ (drainInner batch_size 0 [64]).1, c.accepted ≤ c.len) ∧
    (∀ c ∈ (cbrInner batch_size 0 0 0 (List.replicate 64 ⟨[0], 1⟩)).1,
        c.accepted ≤ c.len) ∧
    ((∀ c ∈ (drainInner batch_size 0 [64]).1, c.offset + c.len = batch_size) ∧
      (∀ f, (drainInner batch_size 0 [64]).2 = some f → f = batch_size) ∧
      (∀ c ∈ (cbrInner batch_size 0 0 0 (List.replicate 64 ⟨[0], 1⟩)).1,
          c.offset + c.len ≤ batch_size) ∧
      (∀ s ns2, (cbrInner batch_size 0 0 0 (List.replicate 64 ⟨[0], 1⟩)).2
          = some (s, ns2) → s = batch_size)) :=
  ⟨by decide, by decide,
   claim10_inner_loops_safe batch_size 0 0 [64] (List.replicate 64 ⟨[0], 1⟩)
     (by decide) (by decide)⟩

end rate_limiter
